import Mathlib

/-!
# crypto-storage: legacy header codec, streaming cipher writer/reader, store dispatch

A shallow embedding of `header.go`, `writer.go`, `reader.go` and `store.go`.

Conventions of the embedding
* a Go `[]byte` is a `List Byte` with `Byte := Fin 256`; a nil slice and an empty
  slice are both `[]` (the source only ever asks a slice for `len`, `copy` and
  sub-slices, on which nil and empty agree);
* `uint16(x)` is `x % 65536`, `byte(x)` is `x % 256`, and `uint16` additions wrap
  modulo `65536`;
* a function that can hit a Go run-time panic (slice bounds out of range)
  returns `GoResult.panic` there;
* external collaborators (the blob store, RSA, AES-CFB, the hash functions, the
  JSON codec) are parameters of the model.
-/

namespace CryptoStorage

/-! ## Bytes, slices, results -/

abbrev Byte := Fin 256

/-- Go conversion `byte(x)` of an unsigned integer. -/
def toByte (x : Nat) : Byte := ⟨x % 256, Nat.mod_lt x (by decide)⟩

/-- Go conversion `uint16(x)` of a non-negative integer. -/
def toUint16 (x : Nat) : Nat := x % 65536

/-- Go `make([]byte, n)`: `n` zero bytes (length and capacity `n`). -/
def makeBytes (n : Nat) : List Byte := List.replicate n 0

/-- Go `copy(dst, src)`: overwrite the first `min (len dst) (len src)` bytes of `dst`. -/
def goCopy (dst src : List Byte) : List Byte :=
  src.take dst.length ++ dst.drop src.length

/-- Go `copy(buf[off:], src)` seen as an update of `buf` (for `off ≤ len buf`). -/
def copyAt (buf : List Byte) (off : Nat) (src : List Byte) : List Byte :=
  buf.take off ++ goCopy (buf.drop off) src

/-- Errors of the underlying byte streams. -/
inductive IoErr where
  | EOF
  | failure
deriving DecidableEq, Repr

/-- The errors the package builds with `fmt.Errorf`; a wrapped cause (`%w`) is an argument. -/
inductive Err where
  | invalidMagic                      -- "invalid file: read magicKey failed"
  | readHeaderFailed (cause : IoErr)  -- "read header failed: %w"
  | hashEmpty                         -- digest length 0: encryption not finished
  | hashIsNil                         -- "hash is nil"
  | hashTooLarge                      -- "hash size larger than %d"
  | encKeyTooLarge                    -- "enckey size larger than %d"
  | ivTooLarge                        -- "iv size larger than %d"
  | encKeyIsNil                       -- "header enc key is nil"
  | publicKeyError                    -- "public key error"
  | privateKeyError                   -- "private key error"
  | keyError                          -- an error of the x509 or rsa library
  | cipherInit                        -- aes.NewCipher: invalid key size
  | jsonError                         -- json.Marshal / json.Unmarshal failure
  | hashMismatch                      -- "decrypt failed: file hash not match, ..."
  | io (cause : IoErr)                -- an error of the underlying stream, passed through
  | wrap (ctx : String) (cause : Err) -- fmt.Errorf(ctx + ": %w", cause)
deriving DecidableEq, Repr

/-- Outcome of a Go call that returns `(value, error)` and may panic. -/
inductive GoResult (α : Type) where
  | ok (a : α)
  | error (e : Err)
  | panic
deriving DecidableEq, Repr

def GoResult.isOk {α : Type} : GoResult α → Bool
  | .ok _ => true
  | _ => false

def GoResult.isError {α : Type} : GoResult α → Bool
  | .error _ => true
  | _ => false

def GoResult.isPanic {α : Type} : GoResult α → Bool
  | .panic => true
  | _ => false

/-! ## header.go -/

structure Header where
  Hash : List Byte
  HashType : String
  EncKey : List Byte
  IV : List Byte
  key : List Byte
deriving DecidableEq, Repr

def MaxHashSize : Nat := 64
def MaxEncKeySize : Nat := 65536
def MaxIVSize : Nat := 256
def KeySize : Nat := 16
def HeaderLenSize : Nat := 1 + 2 + 1

/-- The literal "Encrypted&Hashed" as bytes. -/
def MagicKeyV1 : List Byte :=
  [69, 110, 99, 114, 121, 112, 116, 101, 100, 38, 72, 97, 115, 104, 101, 100]

def magicKeySize : Nat := MagicKeyV1.length

/-- The method `Header.Size`. -/
def Header.Size (header : Header) : Nat :=
  MaxHashSize + header.EncKey.length + header.IV.length

/-- The method `Header.BytesV1`: the legacy binary encoding. The three `if field != nil` guards
only skip a `copy` of zero bytes and leave the size at its zero value, which is what
the unguarded statements do on `[]`. -/
def Header.BytesV1 (header : Header) : List Byte :=
  let buf := makeBytes (header.Size + magicKeySize + HeaderLenSize)
  let buf := goCopy buf MagicKeyV1
  let offset := HeaderLenSize + magicKeySize
  let hashSize := toUint16 header.Hash.length
  let buf := copyAt buf offset header.Hash
  let offset := offset + MaxHashSize
  let encKeySize := toUint16 header.EncKey.length
  let buf := copyAt buf offset header.EncKey
  let offset := offset + encKeySize
  let ivSize := toUint16 header.IV.length
  let buf := copyAt buf offset header.IV
  let buf := buf.set magicKeySize (toByte hashSize)
  let buf := buf.set (magicKeySize + 1) (toByte encKeySize)
  let buf := buf.set (magicKeySize + 2) (toByte (encKeySize >>> 8))
  let buf := buf.set (magicKeySize + 3) (toByte ivSize)
  buf

/-- An in-memory `storage.ExternalFileReader`: the bytes not yet consumed. -/
structure FileReader where
  rest : List Byte
deriving DecidableEq, Repr

/-- What one `Read(buf)` call leaves behind: the buffer, the count, the error, the reader. -/
structure ReadOut where
  buf : List Byte
  n : Nat
  err : Option IoErr
  next : FileReader
deriving DecidableEq, Repr

/-- The `Read` of a file-like source: a zero-length request returns `(0, nil)`; at end of
data it returns `(0, EOF)`; otherwise it hands over the bytes it has, up to `len buf`,
with a nil error (a short read is not an error). -/
def FileReader.Read (r : FileReader) (buf : List Byte) : ReadOut :=
  if buf.length = 0 then ⟨buf, 0, none, r⟩
  else if r.rest = [] then ⟨buf, 0, some IoErr.EOF, r⟩
  else
    let n := min buf.length r.rest.length
    ⟨goCopy buf (r.rest.take n), n, none, ⟨r.rest.drop n⟩⟩

/-- Go slice expression `buf[lo:hi]` on a slice whose capacity equals its length. -/
def slice (buf : List Byte) (lo hi : Nat) : Option (List Byte) :=
  if lo ≤ hi ∧ hi ≤ buf.length then some ((buf.take hi).drop lo) else none

/-- The function `ParseHeaderV1`: decode the legacy header from the front of `data`. -/
def ParseHeaderV1 (data : FileReader) : GoResult Header × FileReader :=
  let r1 := data.Read (makeBytes magicKeySize)
  if r1.err ≠ none ∨ r1.buf ≠ MagicKeyV1 then (.error .invalidMagic, r1.next) else
  let r2 := r1.next.Read (makeBytes HeaderLenSize)
  match r2.err with
  | some e => (.error (.readHeaderFailed e), r2.next)
  | none =>
    let headerLen := r2.buf
    let hashSize : Nat := (headerLen.getD 0 0).val
    let encKeySize : Nat :=
      (headerLen.getD 1 0).val ||| toUint16 ((headerLen.getD 2 0).val <<< 8)
    let ivSize : Nat := (headerLen.getD 3 0).val
    if hashSize = 0 then (.error .hashEmpty, r2.next) else
    let r3 := r2.next.Read (makeBytes (toUint16 (MaxHashSize + encKeySize + ivSize)))
    match r3.err with
    | some e => (.error (.readHeaderFailed e), r3.next)
    | none =>
      let buf := r3.buf
      match slice buf 0 hashSize,
            slice buf MaxHashSize (toUint16 (MaxHashSize + encKeySize)),
            slice buf (toUint16 (MaxHashSize + encKeySize)) buf.length with
      | some hash, some encKey, some iv =>
        (.ok { Hash := hash, HashType := "", EncKey := encKey, IV := iv, key := [] }, r3.next)
      | _, _, _ => (.panic, r3.next)

/-- The layout of the legacy header, as one concatenation. -/
def layoutV1 (hash encKey iv : List Byte) : List Byte :=
  MagicKeyV1 ++
    ([toByte hash.length, toByte encKey.length, toByte (encKey.length / 256),
        toByte iv.length] ++
      ((hash ++ makeBytes (MaxHashSize - hash.length)) ++ (encKey ++ iv)))


/-! ## External collaborators -/

/-- The hash algorithms `NewHash` knows. -/
inductive HashAlg where
  | md5
  | sha1
  | sha256
  | crc32
deriving DecidableEq, Repr

/-- The `hash.Hash.Size()` of the four algorithms, in bytes. -/
def HashAlg.Size : HashAlg → Nat
  | .md5 => 16
  | .sha1 => 20
  | .sha256 => 32
  | .crc32 => 4

/-- The primitives the package takes from libraries. A `cipher.Stream` is a state machine
that consumes its keystream byte by byte (`streamStep`), a `hash.Hash` absorbs its input
byte by byte (`hashStep`); the PEM, x509, RSA and JSON library calls are functions on
byte strings. `ParsePKIXPublicKey` answers `ok none` for a well-formed public key of
another algorithm than RSA. The randomness `rsa.EncryptPKCS1v15` draws is its `pad`
argument. -/
structure Primitives where
  StreamState : Type
  HashState : Type
  NewCFBEncrypter : List Byte → List Byte → StreamState
  NewCFBDecrypter : List Byte → List Byte → StreamState
  streamStep : StreamState → Byte → Byte × StreamState
  hashInit : HashAlg → HashState
  hashStep : HashState → Byte → HashState
  hashSum : HashState → List Byte
  RSAPublicKey : Type
  RSAPrivateKey : Type
  pemDecode : List Byte → Option (List Byte)
  ParsePKIXPublicKey : List Byte → Except Err (Option RSAPublicKey)
  ParsePKCS1PrivateKey : List Byte → Except Err RSAPrivateKey
  EncryptPKCS1v15 : (pad : List Byte) → RSAPublicKey → List Byte → Except Err (List Byte)
  DecryptPKCS1v15 : RSAPrivateKey → List Byte → Except Err (List Byte)
  jsonMarshal : Header → Except Err (List Byte)
  jsonUnmarshal : List Byte → Except Err Header

/-- The call `cipher.Stream.XORKeyStream(dst, src)`: the transformed bytes and the advanced stream. -/
def XORKeyStream (P : Primitives) (s : P.StreamState) : List Byte → List Byte × P.StreamState
  | [] => ([], s)
  | b :: bs =>
    let r := P.streamStep s b
    let rs := XORKeyStream P r.2 bs
    (r.1 :: rs.1, rs.2)

/-- A `hash.Hash` value: which algorithm it is and its running state. -/
structure Hasher (P : Primitives) where
  alg : HashAlg
  state : P.HashState

/-- The method `hash.Hash.Write`; by the interface contract it never returns an error. -/
def Hasher.Write {P : Primitives} (h : Hasher P) (p : List Byte) : Hasher P :=
  { h with state := p.foldl P.hashStep h.state }

/-- The call `hash.Hash.Sum(nil)`. -/
def Hasher.Sum {P : Primitives} (h : Hasher P) : List Byte := P.hashSum h.state

/-- The outcome of the three draws from `crypto/rand` made while a header is created. -/
structure Entropy where
  key : Except IoErr (List Byte)
  iv : Except IoErr (List Byte)
  pad : List Byte

/-- The call `rand.Read(buf)`: fill `buf` with the bytes drawn, or fail. -/
def randRead (draw : Except IoErr (List Byte)) (buf : List Byte) : Except IoErr (List Byte) :=
  match draw with
  | .error e => .error e
  | .ok bytes => .ok (goCopy buf bytes)

/-- The constant `aes.BlockSize`. -/
def aesBlockSize : Nat := 16

/-- The call `aes.NewCipher(key)`: the key must be 16, 24 or 32 bytes long. -/
def aesNewCipher (key : List Byte) : Except Err (List Byte) :=
  if key.length = 16 ∨ key.length = 24 ∨ key.length = 32 then .ok key else .error .cipherInit

/-- An in-memory `storage.ExternalFileWriter` with a scripted failure pattern: it records
the bytes written and the number of `Close` calls, and answers `Write` and `Close` with
`writeErr` and `closeErr`. -/
structure FileWriter where
  stored : List Byte
  closeCalls : Nat
  writeErr : Option IoErr
  closeErr : Option IoErr
deriving DecidableEq, Repr

def FileWriter.Write (w : FileWriter) (p : List Byte) : (Nat × Option IoErr) × FileWriter :=
  match w.writeErr with
  | some e => ((0, some e), w)
  | none => ((p.length, none), { w with stored := w.stored ++ p })

def FileWriter.Close (w : FileWriter) : Option IoErr × FileWriter :=
  (w.closeErr, { w with closeCalls := w.closeCalls + 1 })

/-- The function `io.ReadAll` on a file-like source. -/
def ioReadAll (r : FileReader) : List Byte × FileReader := (r.rest, ⟨[]⟩)

/-! ## store.go: NewHash -/

/-- The `switch hashType` of `NewHash`: `none` is the nil hash. -/
def NewHash (P : Primitives) (hashType : String) : Option (Hasher P) :=
  if hashType = "md5" then some ⟨.md5, P.hashInit .md5⟩
  else if hashType = "sha1" then some ⟨.sha1, P.hashInit .sha1⟩
  else if hashType = "sha256" then some ⟨.sha256, P.hashInit .sha256⟩
  else if hashType = "crc32" then some ⟨.crc32, P.hashInit .crc32⟩
  else none

/-! ## header.go: construction -/

/-- The function `rsaEncrypt` of header.go. The type assertion `pub.(*rsa.PublicKey)` is
unchecked, so a public key of another algorithm makes it panic. -/
def rsaEncrypt (P : Primitives) (publicData pad origData : List Byte) :
    GoResult (List Byte) :=
  match P.pemDecode publicData with
  | none => .error .publicKeyError
  | some blockBytes =>
    match P.ParsePKIXPublicKey blockBytes with
    | .error _ => .error .publicKeyError
    | .ok none => .panic
    | .ok (some pub) =>
      match P.EncryptPKCS1v15 pad pub origData with
      | .error e => .error e
      | .ok cipherText => .ok cipherText

/-- The function `rsaDecrypt` of reader.go. -/
def rsaDecrypt (P : Primitives) (privateData cipherText : List Byte) :
    Except Err (List Byte) :=
  match P.pemDecode privateData with
  | none => .error .privateKeyError
  | some blockBytes =>
    match P.ParsePKCS1PrivateKey blockBytes with
    | .error e => .error e
    | .ok priv => P.DecryptPKCS1v15 priv cipherText

def NewHeader (P : Primitives) (key encKey iv : List Byte) (hashType : String) :
    Except Err Header :=
  match NewHash P hashType with
  | none => .error .hashIsNil
  | some hash =>
    if hash.alg.Size > MaxHashSize then .error .hashTooLarge
    else if encKey.length > MaxEncKeySize then .error .encKeyTooLarge
    else if iv.length > MaxIVSize then .error .ivTooLarge
    else .ok { Hash := [], EncKey := encKey, IV := iv, key := key, HashType := hashType }

def NewRandHeader (P : Primitives) (ent : Entropy) (publicData : List Byte)
    (hashType : String) : GoResult Header :=
  match randRead ent.key (makeBytes KeySize) with
  | .error e => .error (.wrap "init key failed" (.io e))
  | .ok key =>
    match randRead ent.iv (makeBytes aesBlockSize) with
    | .error e => .error (.wrap "init cipher IV failed" (.io e))
    | .ok iv =>
      match rsaEncrypt P publicData ent.pad key with
      | .panic => .panic
      | .error e => .error (.wrap "encrypt key failed" e)
      | .ok encKey =>
        match NewHeader P key encKey iv hashType with
        | .error e => .error e
        | .ok header => .ok header

/-! ## writer.go -/

/-- The writer. Its `hash` is never nil: `NewCryptoWriter` hands out a writer only after
`NewHeader` found `NewHash(hashType)` non-nil. -/
structure CryptoWriter (P : Primitives) where
  dataWriter : FileWriter
  headerWriter : FileWriter
  header : Header
  buf : List Byte
  stream : P.StreamState
  hash : Hasher P

def NewCryptoWriter (P : Primitives) (ent : Entropy) (publicData : List Byte)
    (hashType : String) (dataWriter headerWriter : FileWriter) : GoResult (CryptoWriter P) :=
  match NewRandHeader P ent publicData hashType with
  | .panic => .panic
  | .error e => .error (.wrap "create header failed" e)
  | .ok header =>
    match aesNewCipher header.key with
    | .error e => .error (.wrap "create cipher failed" e)
    | .ok block =>
      match NewHash P hashType with
      | none => .panic -- not reachable: NewHeader has rejected a nil hash above
      | some hash =>
        if header.IV.length ≠ aesBlockSize then .panic -- NewCFBEncrypter: IV length
        else .ok { dataWriter := dataWriter, headerWriter := headerWriter, header := header,
                   buf := [], stream := P.NewCFBEncrypter block header.IV, hash := hash }

/-- The method `CryptoWriter.Write`. The scratch slice is `w.buf[:n]` when the cached buffer is long
enough (the transform then writes through to `w.buf`), a fresh one otherwise; the field
`w.buf` itself is never reassigned. -/
def CryptoWriter.Write {P : Primitives} (w : CryptoWriter P) (p : List Byte) :
    (Nat × Option Err) × CryptoWriter P :=
  let n := p.length
  let fresh : Bool := decide (n > w.buf.length)
  let buf := if fresh then makeBytes n else w.buf.take n
  let x := XORKeyStream P w.stream p
  let buf := goCopy buf x.1
  let w := { w with stream := x.2, buf := if fresh then w.buf else goCopy w.buf x.1 }
  let w := { w with hash := w.hash.Write p }
  let r := w.dataWriter.Write buf
  let w := { w with dataWriter := r.2 }
  match r.1.2 with
  | some e => ((0, some (.wrap "write data failed" (.io e))), w)
  | none => ((r.1.1, none), w)

def CryptoWriter.WriteHeaderV1 {P : Primitives} (c : CryptoWriter P) :
    Option Err × CryptoWriter P :=
  let c := { c with header := { c.header with Hash := c.hash.Sum } }
  let r := c.headerWriter.Write c.header.BytesV1
  let c := { c with headerWriter := r.2 }
  match r.1.2 with
  | some e => (some (.wrap "write header failed" (.io e)), c)
  | none => (none, c)

def CryptoWriter.WriteHeaderJson {P : Primitives} (c : CryptoWriter P) :
    Option Err × CryptoWriter P :=
  let c := { c with header := { c.header with Hash := c.hash.Sum } }
  match P.jsonMarshal c.header with
  | .error e => (some (.wrap "marshal header map failed" e), c)
  | .ok headerJSON =>
    let r := c.headerWriter.Write headerJSON
    let c := { c with headerWriter := r.2 }
    match r.1.2 with
    | some e => (some (.wrap "write header failed" (.io e)), c)
    | none => (none, c)

def CryptoWriter.Close {P : Primitives} (w : CryptoWriter P) : Option Err × CryptoWriter P :=
  let r := w.WriteHeaderJson
  match r.1 with
  | some e => (some (.wrap "write header failed" e), r.2)
  | none =>
    let w := r.2
    let h := w.headerWriter.Close
    let w := { w with headerWriter := h.2 }
    match h.1 with
    | some e => (some (.wrap "close header writer failed" (.io e)), w)
    | none =>
      let d := w.dataWriter.Close
      let w := { w with dataWriter := d.2 }
      match d.1 with
      | some e => (some (.wrap "close data writer failed" (.io e)), w)
      | none => (none, w)

/-- A caller issuing `Write(P1)`, ..., `Write(Pk)` in order, stopping at the first error. -/
def CryptoWriter.writeAll {P : Primitives} (w : CryptoWriter P) :
    List (List Byte) → Option Err × CryptoWriter P
  | [] => (none, w)
  | p :: ps =>
    let r := w.Write p
    match r.1.2 with
    | some e => (some e, r.2)
    | none => r.2.writeAll ps

/-! ## reader.go -/

/-- The reader; the embedded `ExternalFileReader` is the field `source`. Its `hash` is
never nil: `NewCryptoReader` returns an error when `NewHash` gives nil. -/
structure CryptoReader (P : Primitives) where
  source : FileReader
  header : Header
  buf : List Byte
  stream : P.StreamState
  hash : Hasher P

/-- The function `NewCryptoReader` with `initCipherStream` inlined at its call. -/
def NewCryptoReader (P : Primitives) (dataReader : FileReader) (privateData : List Byte)
    (header : Header) : GoResult (CryptoReader P) :=
  match NewHash P header.HashType with
  | none => .error .hashIsNil
  | some hash =>
    if header.EncKey.length = 0 then .error (.wrap "init reader failed" .encKeyIsNil)
    else
      match rsaDecrypt P privateData header.EncKey with
      | .error e => .error (.wrap "init reader failed" (.wrap "decrypt key failed" e))
      | .ok key =>
        let header := { header with key := key }
        match aesNewCipher key with
        | .error e => .error (.wrap "init reader failed" (.wrap "new cipher failed" e))
        | .ok block =>
          if header.IV.length ≠ aesBlockSize then .panic -- NewCFBDecrypter: IV length
          else .ok { source := dataReader, header := header, buf := [],
                     stream := P.NewCFBDecrypter block header.IV, hash := hash }

/-- What one `CryptoReader.Read(p)` call leaves behind. -/
structure CryptoReadOut (P : Primitives) where
  p : List Byte
  n : Nat
  err : Option Err
  next : CryptoReader P

/-- The method `CryptoReader.Read`. As in `Write`, the scratch slice is `r.buf[:n]` when the cached
buffer is long enough (the source then writes through to `r.buf`), a fresh one otherwise. -/
def CryptoReader.Read {P : Primitives} (r : CryptoReader P) (p : List Byte) :
    CryptoReadOut P :=
  let buf := if p.length > r.buf.length then makeBytes p.length else r.buf.take p.length
  let out := r.source.Read buf
  let r := { r with source := out.next,
                    buf := if p.length > r.buf.length then r.buf else goCopy r.buf out.buf }
  if out.err ≠ none ∧ out.err ≠ some IoErr.EOF then
    ⟨p, out.n, out.err.map Err.io, r⟩
  else
    let x := XORKeyStream P r.stream (out.buf.take out.n)
    let p := goCopy p x.1
    let r := { r with stream := x.2, hash := r.hash.Write (p.take out.n) }
    if out.err = some IoErr.EOF then ⟨p, out.n, some (.io .EOF), r⟩
    else ⟨p, out.n, none, r⟩

/-- The method `CryptoReader.CheckSum`. -/
def CryptoReader.CheckSum {P : Primitives} (r : CryptoReader P) : Option Err :=
  if r.header.Hash ≠ r.hash.Sum then some .hashMismatch else none

/-- A caller reading with buffers of the given lengths, one `Read` per length, until a
`Read` reports an error or end-of-stream; it collects `p[:n]` of every call. -/
def CryptoReader.readAll {P : Primitives} (r : CryptoReader P) :
    List Nat → (List Byte × Option Err) × CryptoReader P
  | [] => (([], none), r)
  | n :: ns =>
    let out := r.Read (makeBytes n)
    let got := out.p.take out.n
    match out.err with
    | some e => ((got, some e), out.next)
    | none =>
      let rest := out.next.readAll ns
      ((got ++ rest.1.1, rest.1.2), rest.2)

def ReadHeaderV1 (headerReader : FileReader) : GoResult Header × FileReader :=
  match ParseHeaderV1 headerReader with
  | (.error e, rd) => (.error (.wrap "parse header failed" e), rd)
  | other => other

def ReadHeaderV2 (P : Primitives) (headerReader : FileReader) : Except Err Header :=
  let data := (ioReadAll headerReader).1
  match P.jsonUnmarshal data with
  | .error e => .error (.wrap "parse header failed" e)
  | .ok header => .ok header

/-! ## store.go -/

/-- The store: the objects of the underlying blob store (an in-memory one, whose `Open`
fails exactly on a missing object and whose `FileExists` does not fail) and the options. -/
structure CryptoStore where
  objects : List (String × List Byte)
  hashType : String
  privateKey : List Byte
  publicData : List Byte
  suffix : String

def storageOpen (objects : List (String × List Byte)) (name : String) :
    Except IoErr FileReader :=
  match objects.lookup name with
  | some bytes => .ok ⟨bytes⟩
  | none => .error .failure

def storageFileExists (objects : List (String × List Byte)) (name : String) : Bool :=
  (objects.lookup name).isSome

def CryptoStore.FormatHeaderName (c : CryptoStore) (name : String) : String :=
  name ++ "." ++ c.suffix

/-- The method `CryptoStore.Open`: the header comes from the sidecar object when it exists, from the
front of the data object otherwise. -/
def CryptoStore.Open (P : Primitives) (c : CryptoStore) (name : String) :
    GoResult (CryptoReader P) :=
  match storageOpen c.objects name with
  | .error e => .error (.wrap "open data file failed" (.io e))
  | .ok dataReader =>
    let found : GoResult Header × FileReader :=
      if storageFileExists c.objects (c.FormatHeaderName name) then
        match storageOpen c.objects (c.FormatHeaderName name) with
        | .error e => (.error (.wrap "open header file failed" (.io e)), dataReader)
        | .ok headerReader =>
          match ReadHeaderV2 P headerReader with
          | .error e => (.error (.wrap "read header version 2 failed" e), dataReader)
          | .ok header => (.ok header, dataReader)
      else
        match ReadHeaderV1 dataReader with
        | (.error e, rd) => (.error (.wrap "read header version 1 failed" e), rd)
        | other => other
    match found with
    | (.error e, _) => .error e
    | (.panic, _) => .panic
    | (.ok header, dataReader) =>
      match NewCryptoReader P dataReader c.privateKey header with
      | .error e => .error (.wrap "new reader failed" e)
      | other => other

/-! ## A small concrete instance of the primitives

Used to run the model on concrete inputs: a one-byte-block cipher feedback stream, an
additive checksum, a byte-shifting key wrap and a length-prefixed header record. -/

/-- Stream state: decrypting?, key byte, feedback register. -/
def tinyStep (s : Bool × Byte × Byte) (b : Byte) : Byte × (Bool × Byte × Byte) :=
  let ks : Byte := s.2.2 + s.2.1
  if s.1 then (b - ks, (s.1, s.2.1, b)) else (b + ks, (s.1, s.2.1, b + ks))

def tinyHashCode (hashType : String) : Option Byte :=
  if hashType = "md5" then some 0
  else if hashType = "sha1" then some 1
  else if hashType = "sha256" then some 2
  else if hashType = "crc32" then some 3
  else none

def tinyHashName (c : Byte) : Option String :=
  if c = 0 then some "md5"
  else if c = 1 then some "sha1"
  else if c = 2 then some "sha256"
  else if c = 3 then some "crc32"
  else none

/-- A list as tagged bytes: `1, b` for every byte `b`, then `0`; `tail` follows. -/
def tinyEncList : List Byte → List Byte → List Byte
  | [], tail => 0 :: tail
  | b :: bs, tail => 1 :: b :: tinyEncList bs tail

/-- Inverse of `tinyEncList`: the list and what follows it. -/
def tinyDecList : List Byte → Option (List Byte × List Byte)
  | [] => none
  | [t] => if t = 0 then some ([], []) else none
  | t :: b :: rest =>
    if t = 0 then some ([], b :: rest)
    else
      match tinyDecList rest with
      | none => none
      | some r => some (b :: r.1, r.2)

def tinyMarshal (h : Header) : Except Err (List Byte) :=
  match tinyHashCode h.HashType with
  | none => .error .jsonError
  | some c => .ok (c :: tinyEncList h.Hash (tinyEncList h.EncKey (tinyEncList h.IV [])))

def tinyUnmarshal : List Byte → Except Err Header
  | [] => .error .jsonError
  | c :: rest =>
    match tinyHashName c, tinyDecList rest with
    | some name, some r1 =>
      match tinyDecList r1.2 with
      | none => .error .jsonError
      | some r2 =>
        match tinyDecList r2.2 with
        | none => .error .jsonError
        | some r3 => .ok { Hash := r1.1, HashType := name, EncKey := r2.1, IV := r3.1, key := [] }
    | _, _ => .error .jsonError

def tinyPrimitives : Primitives where
  StreamState := Bool × Byte × Byte
  HashState := Byte
  NewCFBEncrypter := fun key iv => (false, key.headD 0, iv.headD 0)
  NewCFBDecrypter := fun key iv => (true, key.headD 0, iv.headD 0)
  streamStep := tinyStep
  hashInit := fun alg => toByte alg.Size
  hashStep := fun h b => 31 * h + b
  hashSum := fun h => [h]
  RSAPublicKey := Unit
  RSAPrivateKey := Unit
  pemDecode := fun data => if data = [] then none else some data
  ParsePKIXPublicKey := fun blockBytes =>
    if blockBytes.headD 0 = 1 then .ok (some ())
    else if blockBytes.headD 0 = 2 then .ok none
    else .error .keyError
  ParsePKCS1PrivateKey := fun blockBytes =>
    if blockBytes.headD 0 = 1 then .ok () else .error .keyError
  EncryptPKCS1v15 := fun _ _ origData => .ok (origData.map (fun b => b + 1))
  DecryptPKCS1v15 := fun _ cipherText => .ok (cipherText.map (fun b => b - 1))
  jsonMarshal := tinyMarshal
  jsonUnmarshal := tinyUnmarshal

/-- A sink that accepts every write and closes without error. -/
def okSink : FileWriter := ⟨[], 0, none, none⟩

/-- A sink whose `Close` fails. -/
def closeFailSink : FileWriter := ⟨[], 0, none, some .failure⟩

/-- A sink whose `Write` fails. -/
def writeFailSink : FileWriter := ⟨[], 0, some .failure, none⟩

/-- A writer over the small instance, as `NewCryptoWriter` builds it, on the given sinks. -/
def tinyWriter (dataWriter headerWriter : FileWriter) : CryptoWriter tinyPrimitives where
  dataWriter := dataWriter
  headerWriter := headerWriter
  header := { Hash := [], HashType := "md5", EncKey := List.replicate 16 8,
              IV := List.replicate 16 3, key := List.replicate 16 7 }
  buf := []
  stream := tinyPrimitives.NewCFBEncrypter (List.replicate 16 7) (List.replicate 16 3)
  hash := ⟨.md5, tinyPrimitives.hashInit .md5⟩

/-- A finalized legacy header: 16-byte digest, 16-byte wrapped key, 16-byte IV. -/
def legacyHeader : Header :=
  { Hash := List.replicate 16 5, HashType := "", EncKey := List.replicate 16 8,
    IV := List.replicate 16 3, key := [] }

/-- A store holding one legacy object (header in front of the ciphertext), no sidecar. -/
def legacyStore : CryptoStore where
  objects := [("a", legacyHeader.BytesV1 ++ [114, 222, 81])]
  hashType := "md5"
  privateKey := [1]
  publicData := [1]
  suffix := "crypto"

/-- The write-then-read scenario: a writer on two fresh sinks takes the plaintext in the
given pieces and is closed; the header is decoded from what the header sink stored; a
reader over what the data sink stored is read with buffers of the given lengths. The
result is the plaintext read, the error that ended the reading, and the `CheckSum`
verdict; `none` when any step before the reading fails. -/
def roundTrip (P : Primitives) (ent : Entropy) (publicData privateData : List Byte)
    (hashType : String) (pieces : List (List Byte)) (sizes : List Nat) :
    Option (List Byte × Option Err × Option Err) :=
  match NewCryptoWriter P ent publicData hashType okSink okSink with
  | .ok w =>
    match w.writeAll pieces with
    | (some _, _) => none
    | (none, w) =>
      match w.Close with
      | (some _, _) => none
      | (none, w) =>
        match ReadHeaderV2 P ⟨w.headerWriter.stored⟩ with
        | .error _ => none
        | .ok header =>
          match NewCryptoReader P ⟨w.dataWriter.stored⟩ privateData header with
          | .ok r =>
            let o := r.readAll sizes
            some (o.1.1, o.1.2, o.2.CheckSum)
          | _ => none
  | _ => none

/-- The draws of the concrete runs. -/
def tinyEntropy : Entropy := ⟨.ok (List.replicate 16 7), .ok (List.replicate 16 3), []⟩

/-- The error of a result, if it is one. -/
def GoResult.err? {α : Type} : GoResult α → Option Err
  | .error e => some e
  | _ => none

end CryptoStorage

namespace CryptoStorage

/-! ## Slice lemmas -/

theorem makeBytes_length (n : Nat) : (makeBytes n).length = n := by
  simp [makeBytes]

theorem makeBytes_add (a b : Nat) : makeBytes (a + b) = makeBytes a ++ makeBytes b := by
  unfold makeBytes
  exact List.replicate_add a b 0

theorem goCopy_of_le (dst src : List Byte) (h : src.length ≤ dst.length) :
    goCopy dst src = src ++ dst.drop src.length := by
  simp [goCopy, List.take_of_length_le h]

theorem goCopy_nil_src (dst : List Byte) : goCopy dst [] = dst := by
  simp [goCopy]

theorem goCopy_exact (dst src rest : List Byte) (h : src.length = dst.length) :
    goCopy (dst ++ rest) src = src ++ rest := by
  rw [goCopy_of_le _ _ (by simp [h]), h]
  simp

theorem goCopy_makeBytes (n : Nat) (src rest : List Byte) (h : src.length ≤ n) :
    goCopy (makeBytes n ++ rest) src = src ++ (makeBytes (n - src.length) ++ rest) := by
  rw [goCopy_of_le _ _ (by simp [makeBytes_length]; omega)]
  congr 1
  rw [List.drop_append_of_le_length (by simp [makeBytes_length, h])]
  simp [makeBytes]

theorem copyAt_append (a b src : List Byte) (off : Nat) (h : off = a.length) :
    copyAt (a ++ b) off src = a ++ goCopy b src := by
  subst h
  simp [copyAt]

theorem toUint16_of_lt (x : Nat) (h : x < 65536) : toUint16 x = x := by
  simp [toUint16, Nat.mod_eq_of_lt h]

theorem BytesV1_eq_layoutV1 (header : Header)
    (hHash : header.Hash.length ≤ 64)
    (hKey : header.EncKey.length < 65536)
    (hIV : header.IV.length < 256) :
    header.BytesV1 = layoutV1 header.Hash header.EncKey header.IV := by
  have hsz : header.Size + magicKeySize + HeaderLenSize
      = 16 + (4 + (64 + (header.EncKey.length + header.IV.length))) := by
    simp [Header.Size, magicKeySize, HeaderLenSize, MaxHashSize, MagicKeyV1]
    omega
  have hmag : MagicKeyV1.length = (makeBytes 16).length := by
    simp [makeBytes_length, MagicKeyV1]
  unfold Header.BytesV1
  simp only [hsz, makeBytes_add]
  rw [goCopy_exact _ _ _ hmag]
  rw [show MagicKeyV1 ++ (makeBytes 4 ++ (makeBytes 64 ++
        (makeBytes header.EncKey.length ++ makeBytes header.IV.length)))
      = (MagicKeyV1 ++ makeBytes 4) ++ (makeBytes 64 ++
        (makeBytes header.EncKey.length ++ makeBytes header.IV.length)) by simp]
  rw [copyAt_append _ _ _ _ (by simp [makeBytes_length, MagicKeyV1, HeaderLenSize, magicKeySize])]
  rw [goCopy_makeBytes _ _ _ hHash]
  rw [show (MagicKeyV1 ++ makeBytes 4) ++ (header.Hash ++ (makeBytes (64 - header.Hash.length) ++
        (makeBytes header.EncKey.length ++ makeBytes header.IV.length)))
      = (MagicKeyV1 ++ makeBytes 4 ++ (header.Hash ++ makeBytes (64 - header.Hash.length))) ++
        (makeBytes header.EncKey.length ++ makeBytes header.IV.length) by simp]
  rw [copyAt_append _ _ _ _ (by
    simp [makeBytes_length, MagicKeyV1, HeaderLenSize, magicKeySize, MaxHashSize]; omega)]
  rw [goCopy_makeBytes _ _ _ (Nat.le_refl _), Nat.sub_self]
  rw [toUint16_of_lt _ hKey, toUint16_of_lt _ (by omega : header.IV.length < 65536),
    toUint16_of_lt _ (by omega : header.Hash.length < 65536)]
  rw [show (MagicKeyV1 ++ makeBytes 4 ++ (header.Hash ++ makeBytes (64 - header.Hash.length))) ++
        (header.EncKey ++ (makeBytes 0 ++ makeBytes header.IV.length))
      = (MagicKeyV1 ++ makeBytes 4 ++ (header.Hash ++ makeBytes (64 - header.Hash.length)) ++
        header.EncKey) ++ makeBytes header.IV.length by simp [makeBytes]]
  rw [copyAt_append _ _ _ _ (by
    simp [makeBytes_length, MagicKeyV1, HeaderLenSize, magicKeySize, MaxHashSize]; omega)]
  rw [show makeBytes header.IV.length = makeBytes header.IV.length ++ [] by simp]
  rw [goCopy_makeBytes _ _ _ (Nat.le_refl _), Nat.sub_self]
  simp [layoutV1, MagicKeyV1, magicKeySize, makeBytes, List.replicate, MaxHashSize,
    Nat.shiftRight_eq_div_pow]

theorem layoutV1_length (hash encKey iv : List Byte) (h : hash.length ≤ 64) :
    (layoutV1 hash encKey iv).length = 84 + encKey.length + iv.length := by
  simp [layoutV1, MagicKeyV1, makeBytes_length, MaxHashSize]
  omega

/-- Little-endian reassembly of the two wrapped-key length bytes, as the decoder does it. -/
theorem decode_encKeySize (k : Nat) (h : k < 65536) :
    (toByte k).val ||| toUint16 ((toByte (k / 256)).val <<< 8) = k := by
  have h1 : k / 256 < 256 := by omega
  have h2 : k / 256 % 256 = k / 256 := Nat.mod_eq_of_lt h1
  have h3 : (k / 256) <<< 8 < 65536 := by
    rw [Nat.shiftLeft_eq]; omega
  have h4 : k % 256 < 2 ^ 8 := by omega
  simp only [toByte, toUint16, h2, Nat.mod_eq_of_lt h3]
  rw [Nat.lor_comm, Nat.shiftLeft_eq, Nat.mul_comm, ← Nat.mul_add_lt_is_or h4]
  omega

theorem Read_front (a b : List Byte) :
    (FileReader.mk (a ++ b)).Read (makeBytes a.length) = ⟨a, a.length, none, ⟨b⟩⟩ := by
  unfold FileReader.Read
  by_cases ha : a = []
  · subst ha; simp [makeBytes]
  · have hlen : a.length ≠ 0 := by
      intro h; exact ha (List.eq_nil_of_length_eq_zero h)
    simp [makeBytes_length, hlen, ha, goCopy]

theorem Read_front_of_length (a b : List Byte) (n : Nat) (h : n = a.length) :
    (FileReader.mk (a ++ b)).Read (makeBytes n) = ⟨a, a.length, none, ⟨b⟩⟩ := by
  subst h; exact Read_front a b

theorem slice_of_append (a b c : List Byte) :
    slice (a ++ b ++ c) a.length (a.length + b.length) = some b := by
  simp [slice, List.take_append_eq_append_take, List.drop_append_eq_append_drop]

/-- Decoding a well-formed legacy layout, followed by any further bytes of the object. -/
theorem ParseHeaderV1_layoutV1 (hash encKey iv tail : List Byte)
    (h0 : 0 < hash.length) (hHash : hash.length ≤ 64) (hIV : iv.length < 256)
    (hSum : 64 + encKey.length + iv.length < 65536) :
    ParseHeaderV1 ⟨layoutV1 hash encKey iv ++ tail⟩
      = (.ok { Hash := hash, HashType := "", EncKey := encKey, IV := iv, key := [] }, ⟨tail⟩) := by
  have hm : (toByte hash.length).val = hash.length := by
    simp only [toByte]; omega
  have hv : (toByte iv.length).val = iv.length := by
    simp only [toByte]; omega
  have hk := decode_encKeySize encKey.length (by omega)
  have hpad : (hash ++ makeBytes (MaxHashSize - hash.length)).length = 64 := by
    simp [makeBytes_length, MaxHashSize]; omega
  have hsrc : layoutV1 hash encKey iv ++ tail
      = MagicKeyV1 ++ ([toByte hash.length, toByte encKey.length,
          toByte (encKey.length / 256), toByte iv.length] ++
          (((hash ++ makeBytes (MaxHashSize - hash.length)) ++ encKey ++ iv) ++ tail)) := by
    simp only [layoutV1, List.append_assoc]
  rw [hsrc]
  unfold ParseHeaderV1
  rw [Read_front_of_length MagicKeyV1 _ magicKeySize rfl]
  dsimp only
  rw [if_neg (by intro h; rcases h with h | h <;> exact h rfl)]
  rw [Read_front_of_length [toByte hash.length, toByte encKey.length,
    toByte (encKey.length / 256), toByte iv.length] _ HeaderLenSize rfl]
  dsimp only
  simp only [List.getD_cons_zero, List.getD_cons_succ, hm, hv, hk]
  rw [if_neg (by omega)]
  rw [toUint16_of_lt _ (by simp only [MaxHashSize]; omega),
    toUint16_of_lt _ (by simp only [MaxHashSize]; omega)]
  rw [Read_front_of_length _ _ _ (by
    simp only [List.length_append, makeBytes_length, MaxHashSize]; omega)]
  dsimp only
  have s1 : slice ((hash ++ makeBytes (MaxHashSize - hash.length)) ++ encKey ++ iv) 0 hash.length
      = some hash := by
    have := slice_of_append [] hash (makeBytes (MaxHashSize - hash.length) ++ encKey ++ iv)
    simpa using this
  have s2 : slice ((hash ++ makeBytes (MaxHashSize - hash.length)) ++ encKey ++ iv) MaxHashSize
      (MaxHashSize + encKey.length) = some encKey := by
    have := slice_of_append (hash ++ makeBytes (MaxHashSize - hash.length)) encKey iv
    rw [hpad] at this
    exact this
  have s3 : slice ((hash ++ makeBytes (MaxHashSize - hash.length)) ++ encKey ++ iv)
      (MaxHashSize + encKey.length)
      ((hash ++ makeBytes (MaxHashSize - hash.length)) ++ encKey ++ iv).length = some iv := by
    have := slice_of_append ((hash ++ makeBytes (MaxHashSize - hash.length)) ++ encKey) iv []
    simp only [List.append_nil, List.length_append, hpad] at this
    simp only [List.length_append, hpad]
    exact this
  rw [s1, s2, s3]

theorem Read_cons_zero (c : List Byte) :
    ∃ buf n next, (FileReader.mk (0 :: c)).Read (makeBytes HeaderLenSize)
      = ⟨0 :: buf, n, none, next⟩ := by
  have hmin : min 4 (c.length + 1) = min 3 c.length + 1 := by omega
  refine ⟨List.take 3 (List.take (min 3 c.length) c) ++
      List.drop (min 3 c.length + 1) (makeBytes 4), min 3 c.length + 1,
      ⟨List.drop (min 3 c.length + 1) (0 :: c)⟩, ?_⟩
  simp [FileReader.Read, HeaderLenSize, makeBytes_length, goCopy, hmin, List.take_succ_cons]

theorem MagicKeyV1_literal :
    MagicKeyV1 = "Encrypted&Hashed".toList.map (fun c => toByte c.toNat) := by
  decide

/-! ## The legacy header codec -/

/-- C6: for a digest of at most 64 bytes, a wrapped key shorter than 65536 bytes and an IV
shorter than 256 bytes, `BytesV1` is the 16-byte magic, the digest length byte, the
wrapped-key length in two bytes little-endian, the IV length byte, the 64-byte
zero-padded digest slot, the wrapped key and the IV, `84 + len key + len iv` bytes
in all. -/
theorem BytesV1_layout (header : Header)
    (hHash : header.Hash.length ≤ 64)
    (hKey : header.EncKey.length < 65536)
    (hIV : header.IV.length < 256) :
    header.BytesV1 =
        MagicKeyV1 ++
        ([toByte header.Hash.length] ++
         [toByte (header.EncKey.length % 256), toByte (header.EncKey.length / 256)] ++
         [toByte header.IV.length]) ++
        (header.Hash ++ List.replicate (64 - header.Hash.length) 0) ++
        header.EncKey ++ header.IV
    ∧ header.BytesV1.length = 84 + header.EncKey.length + header.IV.length
    ∧ MagicKeyV1.length = 16
    ∧ (header.Hash ++ List.replicate (64 - header.Hash.length) (0 : Byte)).length = 64
    ∧ (toByte header.Hash.length).val = header.Hash.length
    ∧ (toByte (header.EncKey.length % 256)).val + 256 * (toByte (header.EncKey.length / 256)).val
        = header.EncKey.length
    ∧ (toByte header.IV.length).val = header.IV.length := by
  have hl := BytesV1_eq_layoutV1 header hHash hKey hIV
  refine ⟨?_, ?_, rfl, ?_, ?_, ?_, ?_⟩
  · rw [hl]
    have : toByte (header.EncKey.length % 256) = toByte header.EncKey.length := by
      simp [toByte]
    simp [layoutV1, makeBytes, MaxHashSize, this]
  · rw [hl, layoutV1_length _ _ _ hHash]
  · simp; omega
  · simp only [toByte]; omega
  · simp only [toByte]; omega
  · simp only [toByte]; omega

theorem BytesV1_layout_witness :
    (Header.mk [1, 2, 3] "md5" [9, 8, 7, 6] [5, 5] []).BytesV1.length = 84 + 4 + 2 :=
  (BytesV1_layout (Header.mk [1, 2, 3] "md5" [9, 8, 7, 6] [5, 5] [])
    (by decide) (by decide) (by decide)).2.1

/-- C2 (the code at the failing input): a digest of 1 byte, a wrapped key of 1 byte and
an IV of exactly 256 bytes are inside the size ceilings and `NewHeader` accepts them,
but `BytesV1` writes the IV length byte as 0 and the decoder returns an empty IV. -/
theorem BytesV1_roundtrip_fails_at_iv_ceiling :
    (∃ header, NewHeader tinyPrimitives [] [1] (List.replicate 256 0) "md5" = .ok header
      ∧ header.EncKey = [1] ∧ header.IV = List.replicate 256 0)
    ∧ ((Header.mk [1] "md5" [1] (List.replicate 256 0) []).BytesV1.getD 19 1 = 0
      ∧ (Header.mk [1] "md5" [1] (List.replicate 256 0) []).BytesV1.length = 84 + 1 + 256)
    ∧ (1 ≤ (Header.mk [1] "md5" [1] (List.replicate 256 0) []).Hash.length
      ∧ (Header.mk [1] "md5" [1] (List.replicate 256 0) []).Hash.length ≤ 64
      ∧ (Header.mk [1] "md5" [1] (List.replicate 256 0) []).EncKey.length ≤ 65536
      ∧ (Header.mk [1] "md5" [1] (List.replicate 256 0) []).IV.length ≤ 256)
    ∧ (ParseHeaderV1 ⟨(Header.mk [1] "md5" [1] (List.replicate 256 0) []).BytesV1⟩).1
        = .ok ⟨[1], "", [1], [], []⟩
    ∧ ([] : List Byte) ≠ (Header.mk [1] "md5" [1] (List.replicate 256 0) []).IV := by
  refine ⟨?_, ?_, ?_⟩
  · set_option maxRecDepth 100000 in
      exact ⟨⟨[], "md5", [1], List.replicate 256 0, []⟩, rfl, rfl, rfl⟩
  · set_option maxRecDepth 100000 in decide
  · set_option maxRecDepth 100000 in decide

/-- Where the legacy codec does round-trip: for a digest of 1 to 64 bytes, an IV shorter
than 256 bytes and `64 + len key + len iv < 65536`, `BytesV1` depends on the digest,
wrapped key and IV only, and `ParseHeaderV1` on a source holding its bytes succeeds with
the same `Hash`, `EncKey` and `IV`. -/
theorem BytesV1_ParseHeaderV1_roundtrip (header : Header)
    (h0 : 1 ≤ header.Hash.length) (hHash : header.Hash.length ≤ 64)
    (hIV : header.IV.length < 256)
    (hSum : 64 + header.EncKey.length + header.IV.length < 65536) :
    (∀ other : Header, other.Hash = header.Hash → other.EncKey = header.EncKey →
        other.IV = header.IV → other.BytesV1 = header.BytesV1)
    ∧ ∃ parsed : Header, (ParseHeaderV1 ⟨header.BytesV1⟩).1 = .ok parsed
        ∧ parsed.Hash = header.Hash ∧ parsed.EncKey = header.EncKey
        ∧ parsed.IV = header.IV := by
  constructor
  · intro other e1 e2 e3
    simp only [Header.BytesV1, Header.Size, e1, e2, e3]
  · refine ⟨⟨header.Hash, "", header.EncKey, header.IV, []⟩, ?_, rfl, rfl, rfl⟩
    rw [BytesV1_eq_layoutV1 header hHash (by omega) hIV]
    have := ParseHeaderV1_layoutV1 header.Hash header.EncKey header.IV [] h0 hHash hIV hSum
    rw [List.append_nil] at this
    rw [this]

theorem BytesV1_ParseHeaderV1_roundtrip_witness :
    ∃ parsed : Header,
      (ParseHeaderV1 ⟨(Header.mk [1, 2, 3] "sha1" [9, 8, 7, 6] [5, 5] [4]).BytesV1⟩).1
        = .ok parsed
      ∧ parsed.Hash = [1, 2, 3] ∧ parsed.EncKey = [9, 8, 7, 6] ∧ parsed.IV = [5, 5] :=
  (BytesV1_ParseHeaderV1_roundtrip (Header.mk [1, 2, 3] "sha1" [9, 8, 7, 6] [5, 5] [4])
    (by decide) (by decide) (by decide) (by decide)).2

/-- C7: a source whose byte at offset 16 (the encoded digest length) is zero is rejected
with an error, whatever its other bytes are. -/
theorem ParseHeaderV1_zero_digest_length (data : FileReader)
    (h : data.rest[16]? = some 0) :
    (ParseHeaderV1 data).1.isError = true := by
  obtain ⟨rest⟩ := data
  simp only at h
  have hlen : 16 < rest.length := by
    by_contra hc
    rw [List.getElem?_eq_none (by omega)] at h
    cases h
  obtain ⟨a, b, rfl, ha⟩ : ∃ a b, rest = a ++ b ∧ a.length = 16 :=
    ⟨rest.take 16, rest.drop 16, by simp, by simp; omega⟩
  have hb : ∃ c, b = 0 :: c := by
    rw [List.getElem?_append_right (by omega), ha] at h
    cases b with
    | nil => simp at h
    | cons x c => simp at h; exact ⟨c, by rw [h]⟩
  obtain ⟨c, rfl⟩ := hb
  unfold ParseHeaderV1
  rw [Read_front_of_length a _ magicKeySize (by rw [ha]; rfl)]
  dsimp only
  by_cases hm : a = MagicKeyV1
  · rw [if_neg (by intro h; rcases h with h | h; exact h rfl; exact h hm)]
    obtain ⟨buf, n, next, hr⟩ := Read_cons_zero c
    rw [hr]
    simp [GoResult.isError]
  · rw [if_pos (Or.inr hm)]
    rfl

theorem ParseHeaderV1_zero_digest_length_witness :
    (ParseHeaderV1 ⟨MagicKeyV1 ++ [0, 4, 0, 2, 1, 2, 3]⟩).1.isError = true :=
  ParseHeaderV1_zero_digest_length ⟨MagicKeyV1 ++ [0, 4, 0, 2, 1, 2, 3]⟩ (by decide)

/-- C8 (the code at the failing input): magic, digest length 65, wrapped-key length 1, IV
length 0, then 65 bytes. No error is returned: the decoder hands out a 65-byte digest
that runs over the 64-byte slot into the wrapped key. -/
theorem ParseHeaderV1_accepts_digest_length_65 :
    (ParseHeaderV1 ⟨MagicKeyV1 ++ [65, 1, 0, 0] ++ List.replicate 64 7 ++ [9]⟩).1
      = .ok ⟨List.replicate 64 7 ++ [9], "", [9], [], []⟩ := by
  set_option maxRecDepth 100000 in decide

/-- C9 (the code at the failing input): magic, digest length 16, wrapped-key length 4, IV
length 2, then a single byte instead of 70. No error is returned: the short read is
taken for a full one and the missing bytes are zeros. -/
theorem ParseHeaderV1_accepts_truncated_header :
    (MagicKeyV1 ++ [16, 4, 0, 2, 7] : List Byte).length - 20 < 64 + 4 + 2
    ∧ (ParseHeaderV1 ⟨MagicKeyV1 ++ [16, 4, 0, 2, 7]⟩).1
      = .ok ⟨7 :: List.replicate 15 0, "", List.replicate 4 0, [0, 0], []⟩ := by
  set_option maxRecDepth 100000 in decide

/-- C10 (the code at the failing input): magic, digest length 1, wrapped-key length 65535,
IV length 0, then one byte. In 16-bit arithmetic `64 + 65535 + 0` is 63, which is below
`64`, and the slice `buf[64:63]` panics. -/
theorem ParseHeaderV1_panics_on_length_overflow :
    toUint16 (MaxHashSize + 65535 + 0) = 63
    ∧ toUint16 (MaxHashSize + 65535) = 63
    ∧ slice (makeBytes 63) MaxHashSize 63 = none
    ∧ (ParseHeaderV1 ⟨MagicKeyV1 ++ [1, 255, 255, 0, 7]⟩).1 = .panic := by
  set_option maxRecDepth 100000 in decide

/-! ## The streaming writer -/

theorem XORKeyStream_length (P : Primitives) (s : P.StreamState) (p : List Byte) :
    (XORKeyStream P s p).1.length = p.length := by
  induction p generalizing s with
  | nil => rfl
  | cons b bs ih => simp [XORKeyStream, ih]

theorem XORKeyStream_append (P : Primitives) (s : P.StreamState) (a b : List Byte) :
    XORKeyStream P s (a ++ b)
      = ((XORKeyStream P s a).1 ++ (XORKeyStream P (XORKeyStream P s a).2 b).1,
         (XORKeyStream P (XORKeyStream P s a).2 b).2) := by
  induction a generalizing s with
  | nil => simp [XORKeyStream]
  | cons x xs ih => simp [XORKeyStream, ih]

theorem Hasher_Write_append {P : Primitives} (h : Hasher P) (a b : List Byte) :
    h.Write (a ++ b) = (h.Write a).Write b := by
  simp [Hasher.Write, List.foldl_append]

theorem Hasher_Write_nil {P : Primitives} (h : Hasher P) : h.Write [] = h := by
  simp [Hasher.Write]

theorem goCopy_same_length (dst src : List Byte) (h : src.length = dst.length) :
    goCopy dst src = src := by
  rw [goCopy_of_le _ _ (by omega), h]
  simp

theorem goCopy_length (dst src : List Byte) : (goCopy dst src).length = dst.length := by
  simp [goCopy]
  omega

/-- The scratch slice `Write` encrypts into is as long as the plaintext. -/
theorem scratch_length (cache : List Byte) (n : Nat) :
    (if decide (n > cache.length) = true then makeBytes n else cache.take n).length = n := by
  split
  · exact makeBytes_length n
  · rename_i h
    simp at h
    simp [h]

/-- One successful `Write`: what reaches the sink and how the stream and hash advance. -/
theorem Write_effect {P : Primitives} (w : CryptoWriter P) (p : List Byte)
    (hsink : w.dataWriter.writeErr = none) :
    (w.Write p).1 = (p.length, none)
    ∧ (w.Write p).2.dataWriter.stored = w.dataWriter.stored ++ (XORKeyStream P w.stream p).1
    ∧ (w.Write p).2.dataWriter.writeErr = none
    ∧ (w.Write p).2.dataWriter.closeCalls = w.dataWriter.closeCalls
    ∧ (w.Write p).2.dataWriter.closeErr = w.dataWriter.closeErr
    ∧ (w.Write p).2.stream = (XORKeyStream P w.stream p).2
    ∧ (w.Write p).2.hash = w.hash.Write p
    ∧ (w.Write p).2.header = w.header
    ∧ (w.Write p).2.headerWriter = w.headerWriter := by
  have hbuf : goCopy (if decide (p.length > w.buf.length) = true then makeBytes p.length
      else w.buf.take p.length) (XORKeyStream P w.stream p).1 = (XORKeyStream P w.stream p).1 :=
    goCopy_same_length _ _ (by rw [XORKeyStream_length, scratch_length])
  simp only [CryptoWriter.Write, FileWriter.Write, hsink, hbuf, XORKeyStream_length]
  simp

/-- A run of successful writes: the sink receives the ciphertext of the concatenated
plaintext, the stream and the hash advance as for one write of the concatenation. -/
theorem writeAll_effect {P : Primitives} (pieces : List (List Byte)) (w : CryptoWriter P)
    (hsink : w.dataWriter.writeErr = none) :
    (w.writeAll pieces).1 = none
    ∧ (w.writeAll pieces).2.dataWriter.stored
        = w.dataWriter.stored ++ (XORKeyStream P w.stream pieces.flatten).1
    ∧ (w.writeAll pieces).2.dataWriter.writeErr = none
    ∧ (w.writeAll pieces).2.dataWriter.closeCalls = w.dataWriter.closeCalls
    ∧ (w.writeAll pieces).2.dataWriter.closeErr = w.dataWriter.closeErr
    ∧ (w.writeAll pieces).2.stream = (XORKeyStream P w.stream pieces.flatten).2
    ∧ (w.writeAll pieces).2.hash = w.hash.Write pieces.flatten
    ∧ (w.writeAll pieces).2.header = w.header
    ∧ (w.writeAll pieces).2.headerWriter = w.headerWriter := by
  induction pieces generalizing w with
  | nil => simp [CryptoWriter.writeAll, XORKeyStream, Hasher_Write_nil, hsink]
  | cons p ps ih =>
    obtain ⟨e1, e2, e3, e4, e5, e6, e7, e8, e9⟩ := Write_effect w p hsink
    obtain ⟨i1, i2, i3, i4, i5, i6, i7, i8, i9⟩ := ih (w.Write p).2 e3
    have hstep : w.writeAll (p :: ps) = (w.Write p).2.writeAll ps := by
      simp [CryptoWriter.writeAll, e1]
    rw [hstep, List.flatten_cons, XORKeyStream_append, Hasher_Write_append]
    refine ⟨i1, ?_, i3, ?_, ?_, ?_, ?_, ?_, ?_⟩
    · rw [i2, e2, e6, List.append_assoc]
    · rw [i4, e4]
    · rw [i5, e5]
    · rw [i6, e6]
    · rw [i7, e7]
    · rw [i8, e8]
    · rw [i9, e9]

/-- C5: on a data sink that accepts every write, `Write(P1)`, ..., `Write(Pk)` forward the
same bytes in the same order and leave the same stream position and running digest as
the single `Write(P1 ++ ... ++ Pk)` from the same state, and no call fails. -/
theorem Write_chunked_eq_single {P : Primitives} (w : CryptoWriter P)
    (pieces : List (List Byte)) (hsink : w.dataWriter.writeErr = none) :
    (w.writeAll pieces).1 = none
    ∧ (w.Write pieces.flatten).1 = (pieces.flatten.length, none)
    ∧ (w.writeAll pieces).2.dataWriter.stored = (w.Write pieces.flatten).2.dataWriter.stored
    ∧ (w.writeAll pieces).2.dataWriter.stored
        = w.dataWriter.stored ++ (XORKeyStream P w.stream pieces.flatten).1
    ∧ (w.writeAll pieces).2.stream = (w.Write pieces.flatten).2.stream
    ∧ (w.writeAll pieces).2.hash = (w.Write pieces.flatten).2.hash
    ∧ (w.writeAll pieces).2.hash.Sum = (w.Write pieces.flatten).2.hash.Sum := by
  obtain ⟨a1, a2, _, _, _, a6, a7, _, _⟩ := writeAll_effect pieces w hsink
  obtain ⟨b1, b2, _, _, _, b6, b7, _, _⟩ := Write_effect w pieces.flatten hsink
  refine ⟨a1, b1, ?_, a2, ?_, ?_, ?_⟩
  · rw [a2, b2]
  · rw [a6, b6]
  · rw [a7, b7]
  · rw [a7, b7]

theorem Write_chunked_eq_single_witness :
    ((tinyWriter okSink okSink).writeAll [[104, 101], [], [108]]).2.dataWriter.stored
      = ((tinyWriter okSink okSink).Write [104, 101, 108]).2.dataWriter.stored :=
  (Write_chunked_eq_single (tinyWriter okSink okSink) [[104, 101], [], [108]] rfl).2.2.1

/-- C4 (as stated, refuted): when the header sink fails to close, `Close` returns that
failure and the data sink is never closed; when the header write fails, `Close` returns
that failure and neither sink is closed. -/
theorem Close_leaves_sinks_open_after_failure :
    ((tinyWriter okSink closeFailSink).Close.1
        = some (.wrap "close header writer failed" (.io .failure))
      ∧ (tinyWriter okSink closeFailSink).Close.2.headerWriter.closeCalls = 1
      ∧ (tinyWriter okSink closeFailSink).Close.2.dataWriter.closeCalls = 0)
    ∧ ((tinyWriter okSink writeFailSink).Close.1
        = some (.wrap "write header failed" (.wrap "write header failed" (.io .failure)))
      ∧ (tinyWriter okSink writeFailSink).Close.2.headerWriter.closeCalls = 0
      ∧ (tinyWriter okSink writeFailSink).Close.2.dataWriter.closeCalls = 0) := by
  decide

/-- C4 (amended): for every writer and every failure pattern of its sinks, `Close` writes
the header, then closes the header sink, then closes the data sink, and stops at the
first failure, which it returns: after a failed header write no sink is closed, after a
failed close of the header sink the data sink is not closed. It returns no error exactly
when the header write and both closes succeeded, and then each sink was closed once. -/
theorem Close_fail_fast {P : Primitives} (w : CryptoWriter P) :
    (w.WriteHeaderJson.1 = none ↔
        ((∃ bs, P.jsonMarshal { w.header with Hash := w.hash.Sum } = .ok bs)
          ∧ w.headerWriter.writeErr = none))
    ∧ (w.Close.1 = none ↔
        (w.WriteHeaderJson.1 = none ∧ w.headerWriter.closeErr = none
          ∧ w.dataWriter.closeErr = none))
    ∧ (w.Close.1 = none →
        w.Close.2.headerWriter.closeCalls = w.headerWriter.closeCalls + 1
        ∧ w.Close.2.dataWriter.closeCalls = w.dataWriter.closeCalls + 1)
    ∧ (∀ e, w.WriteHeaderJson.1 = some e →
        w.Close.1 = some (.wrap "write header failed" e)
        ∧ w.Close.2.headerWriter.closeCalls = w.headerWriter.closeCalls
        ∧ w.Close.2.dataWriter.closeCalls = w.dataWriter.closeCalls)
    ∧ (∀ e, w.WriteHeaderJson.1 = none → w.headerWriter.closeErr = some e →
        w.Close.1 = some (.wrap "close header writer failed" (.io e))
        ∧ w.Close.2.headerWriter.closeCalls = w.headerWriter.closeCalls + 1
        ∧ w.Close.2.dataWriter.closeCalls = w.dataWriter.closeCalls)
    ∧ (∀ e, w.WriteHeaderJson.1 = none → w.headerWriter.closeErr = none →
        w.dataWriter.closeErr = some e →
        w.Close.1 = some (.wrap "close data writer failed" (.io e))
        ∧ w.Close.2.headerWriter.closeCalls = w.headerWriter.closeCalls + 1
        ∧ w.Close.2.dataWriter.closeCalls = w.dataWriter.closeCalls + 1) := by
  cases hm : P.jsonMarshal { w.header with Hash := w.hash.Sum } <;>
    cases hw : w.headerWriter.writeErr <;>
    cases hc : w.headerWriter.closeErr <;>
    cases hd : w.dataWriter.closeErr <;>
    simp [CryptoWriter.Close, CryptoWriter.WriteHeaderJson, FileWriter.Write,
      FileWriter.Close, hm, hw, hc, hd]

theorem Close_fail_fast_witness :
    (tinyWriter okSink closeFailSink).Close.1
        = some (.wrap "close header writer failed" (.io .failure))
    ∧ (tinyWriter okSink closeFailSink).Close.2.headerWriter.closeCalls
        = (tinyWriter okSink closeFailSink).headerWriter.closeCalls + 1
    ∧ (tinyWriter okSink closeFailSink).Close.2.dataWriter.closeCalls
        = (tinyWriter okSink closeFailSink).dataWriter.closeCalls :=
  (Close_fail_fast (tinyWriter okSink closeFailSink)).2.2.2.2.1 .failure (by decide) rfl

/-- C3 (the code at the failing input): the store has no sidecar for "a", the object
starts with a finalized legacy header that the legacy decoder accepts and whose wrapped
key unwraps to a 16-byte key, and `Open` fails with "hash is nil". -/
theorem Open_legacy_object_fails :
    storageFileExists legacyStore.objects (legacyStore.FormatHeaderName "a") = false
    ∧ (ParseHeaderV1 ⟨legacyHeader.BytesV1 ++ [114, 222, 81]⟩).1 = .ok legacyHeader
    ∧ rsaDecrypt tinyPrimitives legacyStore.privateKey legacyHeader.EncKey
        = .ok (List.replicate 16 7)
    ∧ (legacyStore.Open tinyPrimitives "a").err? = some (.wrap "new reader failed" .hashIsNil) := by
  refine ⟨by decide, ?_, rfl, ?_⟩
  · set_option maxRecDepth 100000 in decide
  · set_option maxRecDepth 100000 in decide

/-! ## The streaming reader -/

/-- One `Read` of the file-like source, with `k = min (len buf) (len rest)`. -/
theorem FileReader_Read_effect (src : FileReader) (buf : List Byte) :
    (src.Read buf).n = min buf.length src.rest.length
    ∧ (src.Read buf).buf.take (min buf.length src.rest.length)
        = src.rest.take (min buf.length src.rest.length)
    ∧ (src.Read buf).next = ⟨src.rest.drop (min buf.length src.rest.length)⟩
    ∧ (src.Read buf).err = if buf.length ≠ 0 ∧ src.rest = [] then some .EOF else none := by
  obtain ⟨rest⟩ := src
  unfold FileReader.Read
  by_cases hb : buf.length = 0
  · simp [hb]
  · by_cases hr : rest = []
    · subst hr; simp [hb]
    · simp only [hb, hr, if_false, and_false, ne_eq, not_false_eq_true, and_true, true_and]
      rw [goCopy_of_le _ _ (by simp)]
      rw [List.take_left' (by simp)]

theorem scratch_length_prop (cache : List Byte) (n : Nat) :
    (if n > cache.length then makeBytes n else cache.take n).length = n := by
  split
  · exact makeBytes_length n
  · rename_i h
    simp at h
    simp [h]

/-- One `CryptoReader.Read` into a fresh buffer of `n` bytes, with
`k = min n (len rest)`: the `k` bytes taken from the source are transformed and hashed. -/
theorem CryptoReader_Read_effect {P : Primitives} (r : CryptoReader P) (n : Nat) :
    (r.Read (makeBytes n)).p.take (r.Read (makeBytes n)).n
        = (XORKeyStream P r.stream (r.source.rest.take (min n r.source.rest.length))).1
    ∧ (r.Read (makeBytes n)).next.source = ⟨r.source.rest.drop (min n r.source.rest.length)⟩
    ∧ (r.Read (makeBytes n)).next.stream
        = (XORKeyStream P r.stream (r.source.rest.take (min n r.source.rest.length))).2
    ∧ (r.Read (makeBytes n)).next.hash
        = r.hash.Write
            (XORKeyStream P r.stream (r.source.rest.take (min n r.source.rest.length))).1
    ∧ (r.Read (makeBytes n)).next.header = r.header
    ∧ (r.Read (makeBytes n)).err
        = if n ≠ 0 ∧ r.source.rest = [] then some (.io .EOF) else none := by
  have hs := scratch_length_prop r.buf n
  obtain ⟨f1, f2, f3, f4⟩ := FileReader_Read_effect r.source
    (if n > r.buf.length then makeBytes n else r.buf.take n)
  rw [hs] at f1 f2 f3 f4
  have hxl : (XORKeyStream P r.stream
      (r.source.rest.take (min n r.source.rest.length))).1.length
      = min n r.source.rest.length := by
    rw [XORKeyStream_length]; simp
  have hp : (goCopy (makeBytes n) (XORKeyStream P r.stream
      (r.source.rest.take (min n r.source.rest.length))).1).take (min n r.source.rest.length)
      = (XORKeyStream P r.stream (r.source.rest.take (min n r.source.rest.length))).1 := by
    rw [goCopy_of_le _ _ (by rw [hxl, makeBytes_length]; omega)]
    exact List.take_left' hxl
  have hne : ¬ ((r.source.Read (if n > r.buf.length then makeBytes n else r.buf.take n)).err
        ≠ none
      ∧ (r.source.Read (if n > r.buf.length then makeBytes n else r.buf.take n)).err
        ≠ some IoErr.EOF) := by
    rw [f4]; split <;> simp
  unfold CryptoReader.Read
  simp only [makeBytes_length]
  rw [if_neg hne]
  simp only [f1, f2, f3, f4, hp]
  by_cases hc : n ≠ 0 ∧ r.source.rest = []
  · simp [hc, XORKeyStream]
  · simp [hc]
    exact hp

/-- Reading with any sequence of buffer lengths: the bytes collected are the transform
of a prefix of the source, the hash has absorbed exactly them, and when the reading
ended with end-of-stream that prefix is the whole source. -/
theorem readAll_effect {P : Primitives} (sizes : List Nat) (r : CryptoReader P) :
    ∃ k, k ≤ r.source.rest.length
      ∧ (r.readAll sizes).1.1 = (XORKeyStream P r.stream (r.source.rest.take k)).1
      ∧ (r.readAll sizes).2.hash = r.hash.Write (r.readAll sizes).1.1
      ∧ (r.readAll sizes).2.header = r.header
      ∧ ((r.readAll sizes).1.2 = some (.io .EOF) → k = r.source.rest.length) := by
  induction sizes generalizing r with
  | nil =>
    refine ⟨0, Nat.zero_le _, ?_, ?_, rfl, ?_⟩
    · simp [CryptoReader.readAll, XORKeyStream]
    · simp [CryptoReader.readAll, Hasher_Write_nil]
    · simp [CryptoReader.readAll]
  | cons n ns ih =>
    obtain ⟨e1, e2, e3, e4, e5, e6⟩ := CryptoReader_Read_effect r n
    by_cases hc : n ≠ 0 ∧ r.source.rest = []
    · rw [if_pos hc] at e6
      have hstep : r.readAll (n :: ns)
          = (((r.Read (makeBytes n)).p.take (r.Read (makeBytes n)).n, some (.io .EOF)),
              (r.Read (makeBytes n)).next) := by
        simp [CryptoReader.readAll, e6]
      refine ⟨min n r.source.rest.length, Nat.min_le_right _ _, ?_, ?_, ?_, ?_⟩
      · rw [hstep]; exact e1
      · rw [hstep]; simp only; rw [e4, e1]
      · rw [hstep]; exact e5
      · intro _; simp [hc.2]
    · rw [if_neg hc] at e6
      obtain ⟨k2, hk2, i2, i3, i4, i5⟩ := ih (r.Read (makeBytes n)).next
      have hstep : r.readAll (n :: ns)
          = (((r.Read (makeBytes n)).p.take (r.Read (makeBytes n)).n
                ++ ((r.Read (makeBytes n)).next.readAll ns).1.1,
              ((r.Read (makeBytes n)).next.readAll ns).1.2),
              ((r.Read (makeBytes n)).next.readAll ns).2) := by
        simp [CryptoReader.readAll, e6]
      rw [e2] at hk2 i2 i5
      simp only [List.length_drop] at hk2 i5
      refine ⟨min n r.source.rest.length + k2, by omega, ?_, ?_, ?_, ?_⟩
      · rw [hstep]; simp only
        rw [List.take_add, XORKeyStream_append, e1, i2, e3]
      · rw [hstep]; simp only
        rw [i3, e4, e1, Hasher_Write_append]
      · rw [hstep]; simp only; rw [i4, e5]
      · rw [hstep]; simp only
        intro h; have := i5 h; omega

/-- Reading with one buffer longer than the source and one more `Read` reaches
end-of-stream. -/
theorem readAll_reaches_EOF {P : Primitives} (r : CryptoReader P) :
    (r.readAll [r.source.rest.length + 1, 1]).1.2 = some (.io .EOF) := by
  obtain ⟨_, e2, _, _, _, e6⟩ := CryptoReader_Read_effect r (r.source.rest.length + 1)
  by_cases hr : r.source.rest = []
  · rw [if_pos ⟨by omega, hr⟩] at e6
    simp [CryptoReader.readAll, e6]
  · rw [if_neg (by simp [hr])] at e6
    obtain ⟨_, _, _, _, _, g6⟩ :=
      CryptoReader_Read_effect (r.Read (makeBytes (r.source.rest.length + 1))).next 1
    rw [e2] at g6
    simp at g6
    simp [CryptoReader.readAll, e6, g6]

/-! ## Write, close, read back -/

theorem NewHash_known (P : Primitives) (hashType : String)
    (hType : hashType = "md5" ∨ hashType = "sha1" ∨ hashType = "sha256"
      ∨ hashType = "crc32") :
    ∃ alg, NewHash P hashType = some ⟨alg, P.hashInit alg⟩ ∧ alg.Size ≤ MaxHashSize := by
  rcases hType with h | h | h | h <;> subst h
  · exact ⟨.md5, by simp [NewHash], by decide⟩
  · exact ⟨.sha1, by simp [NewHash], by decide⟩
  · exact ⟨.sha256, by simp [NewHash], by decide⟩
  · exact ⟨.crc32, by simp [NewHash], by decide⟩

/-- The effect of `Close` on sinks that accept the header and close without error. -/
theorem Close_effect {P : Primitives} (w : CryptoWriter P) (bs : List Byte)
    (hw : w.headerWriter.writeErr = none) (hc : w.headerWriter.closeErr = none)
    (hd : w.dataWriter.closeErr = none)
    (hm : P.jsonMarshal { w.header with Hash := w.hash.Sum } = .ok bs) :
    w.Close.1 = none
    ∧ w.Close.2.headerWriter.stored = w.headerWriter.stored ++ bs
    ∧ w.Close.2.dataWriter.stored = w.dataWriter.stored
    ∧ w.Close.2.headerWriter.closeCalls = w.headerWriter.closeCalls + 1
    ∧ w.Close.2.dataWriter.closeCalls = w.dataWriter.closeCalls + 1 := by
  simp [CryptoWriter.Close, CryptoWriter.WriteHeaderJson, hm, FileWriter.Write,
    FileWriter.Close, hw, hc, hd]

/-- The writer side of the scenario: construction, the writes and `Close` all succeed;
the data sink holds the ciphertext of the concatenated plaintext and the header sink
holds the record of the finalized header. -/
theorem writer_side (P : Primitives) (ent : Entropy) (publicData privateData : List Byte)
    (hashType : String) (keyDraw ivDraw : List Byte)
    (hType : hashType = "md5" ∨ hashType = "sha1" ∨ hashType = "sha256"
      ∨ hashType = "crc32")
    (hKey : ent.key = .ok keyDraw) (hIV : ent.iv = .ok ivDraw)
    (hRSA : ∀ key, key.length = KeySize → ∃ c, rsaEncrypt P publicData ent.pad key = .ok c
        ∧ 0 < c.length ∧ c.length ≤ MaxEncKeySize ∧ rsaDecrypt P privateData c = .ok key)
    (hJSON : ∀ h : Header, (NewHash P h.HashType).isSome →
        ∃ bs, P.jsonMarshal h = .ok bs ∧ P.jsonUnmarshal bs = .ok { h with key := [] })
    (pieces : List (List Byte)) :
    ∃ key iv c alg bs w w1 w2,
      key.length = 16 ∧ iv.length = 16
      ∧ NewHash P hashType = some ⟨alg, P.hashInit alg⟩
      ∧ 0 < c.length ∧ rsaDecrypt P privateData c = .ok key
      ∧ P.jsonUnmarshal bs = .ok
          { Hash := (Hasher.Write ⟨alg, P.hashInit alg⟩ pieces.flatten).Sum,
            HashType := hashType, EncKey := c, IV := iv, key := [] }
      ∧ NewCryptoWriter P ent publicData hashType okSink okSink = .ok w
      ∧ w.writeAll pieces = (none, w1)
      ∧ w1.Close = (none, w2)
      ∧ w2.headerWriter.stored = bs
      ∧ w2.dataWriter.stored = (XORKeyStream P (P.NewCFBEncrypter key iv) pieces.flatten).1 := by
  obtain ⟨alg, hAlg, hSize⟩ := NewHash_known P hashType hType
  have hkl : (goCopy (makeBytes KeySize) keyDraw).length = 16 := by
    rw [goCopy_length, makeBytes_length]; rfl
  have hil : (goCopy (makeBytes aesBlockSize) ivDraw).length = 16 := by
    rw [goCopy_length, makeBytes_length]; rfl
  obtain ⟨c, hc1, hc2, hc3, hc4⟩ := hRSA (goCopy (makeBytes KeySize) keyDraw) hkl
  have hHdr : NewRandHeader P ent publicData hashType
      = .ok { Hash := [], HashType := hashType, EncKey := c,
              IV := goCopy (makeBytes aesBlockSize) ivDraw,
              key := goCopy (makeBytes KeySize) keyDraw } := by
    simp only [NewRandHeader, randRead, hKey, hIV, hc1, NewHeader, hAlg]
    rw [if_neg (by omega), if_neg (by omega), if_neg (by rw [hil]; decide)]
  have hW : NewCryptoWriter P ent publicData hashType okSink okSink
      = .ok { dataWriter := okSink, headerWriter := okSink,
              header := { Hash := [], HashType := hashType, EncKey := c,
                          IV := goCopy (makeBytes aesBlockSize) ivDraw,
                          key := goCopy (makeBytes KeySize) keyDraw },
              buf := [],
              stream := P.NewCFBEncrypter (goCopy (makeBytes KeySize) keyDraw)
                (goCopy (makeBytes aesBlockSize) ivDraw),
              hash := ⟨alg, P.hashInit alg⟩ } := by
    have hil2 : (goCopy (makeBytes aesBlockSize) ivDraw).length = aesBlockSize := hil
    simp only [NewCryptoWriter, hHdr, aesNewCipher, hkl, hAlg]
    simp [hil2]
  obtain ⟨a1, a2, _, _, a5, _, a7, a8, a9⟩ := writeAll_effect pieces
    ({ dataWriter := okSink, headerWriter := okSink,
       header := { Hash := [], HashType := hashType, EncKey := c,
                   IV := goCopy (makeBytes aesBlockSize) ivDraw,
                   key := goCopy (makeBytes KeySize) keyDraw },
       buf := [],
       stream := P.NewCFBEncrypter (goCopy (makeBytes KeySize) keyDraw)
         (goCopy (makeBytes aesBlockSize) ivDraw),
       hash := ⟨alg, P.hashInit alg⟩ } : CryptoWriter P) rfl
  rcases hwa : CryptoWriter.writeAll
    ({ dataWriter := okSink, headerWriter := okSink,
       header := { Hash := [], HashType := hashType, EncKey := c,
                   IV := goCopy (makeBytes aesBlockSize) ivDraw,
                   key := goCopy (makeBytes KeySize) keyDraw },
       buf := [],
       stream := P.NewCFBEncrypter (goCopy (makeBytes KeySize) keyDraw)
         (goCopy (makeBytes aesBlockSize) ivDraw),
       hash := ⟨alg, P.hashInit alg⟩ } : CryptoWriter P) pieces with ⟨e, w1⟩
  rw [hwa] at a1 a2 a5 a7 a8 a9
  simp only at a1 a2 a5 a7 a8 a9
  subst a1
  obtain ⟨bs, hm, hu⟩ := hJSON { w1.header with Hash := w1.hash.Sum }
    (by rw [a8]; simp [hAlg])
  obtain ⟨b1, b2, b3, _, _⟩ := Close_effect w1 bs (by rw [a9]; rfl) (by rw [a9]; rfl)
    (by rw [a5]; rfl) hm
  refine ⟨_, _, c, alg, bs, _, w1, w1.Close.2, hkl, hil, hAlg, hc2, hc4, ?_, hW, hwa, ?_, ?_, ?_⟩
  · rw [hu, a8, a7]
  · rw [← b1]
  · rw [b2, a9]; rfl
  · rw [b3, a2]; rfl

/-! ## The small instance satisfies the assumptions on the primitives -/

theorem tiny_stream_inverse (k reg : Byte) (p : List Byte) :
    (XORKeyStream tinyPrimitives (true, k, reg)
      (XORKeyStream tinyPrimitives (false, k, reg) p).1).1 = p := by
  induction p generalizing reg with
  | nil => rfl
  | cons b bs ih =>
    simp only [XORKeyStream, tinyPrimitives, tinyStep]
    simp only [Bool.false_eq_true, if_false, if_true, add_sub_cancel_right]
    have := ih (b + (reg + k))
    simp only [tinyPrimitives] at this
    rw [this]

theorem tiny_cfb_inverse (key iv p : List Byte) :
    (XORKeyStream tinyPrimitives (tinyPrimitives.NewCFBDecrypter key iv)
      (XORKeyStream tinyPrimitives (tinyPrimitives.NewCFBEncrypter key iv) p).1).1 = p :=
  tiny_stream_inverse (key.headD 0) (iv.headD 0) p

theorem tiny_rsa_inverse (pad key : List Byte) (hk : key.length = KeySize) :
    ∃ c, rsaEncrypt tinyPrimitives [1] pad key = .ok c
      ∧ 0 < c.length ∧ c.length ≤ MaxEncKeySize
      ∧ rsaDecrypt tinyPrimitives [1] c = .ok key := by
  refine ⟨key.map (fun b => b + 1), by simp [rsaEncrypt, tinyPrimitives], ?_, ?_, ?_⟩
  · simp [hk, KeySize]
  · simp [hk, KeySize, MaxEncKeySize]
  · have hid : ((fun b : Byte => b - 1) ∘ fun b => b + 1) = id := by
      funext b; simp
    simp [rsaDecrypt, tinyPrimitives, hid]

theorem tinyDecList_tinyEncList (xs tail : List Byte) :
    tinyDecList (tinyEncList xs tail) = some (xs, tail) := by
  induction xs with
  | nil =>
    cases tail with
    | nil => simp [tinyEncList, tinyDecList]
    | cons t ts => simp [tinyEncList, tinyDecList]
  | cons b bs ih => simp [tinyEncList, tinyDecList, ih]

theorem tiny_json_inverse (h : Header) (hk : (NewHash tinyPrimitives h.HashType).isSome) :
    ∃ bs, tinyPrimitives.jsonMarshal h = .ok bs
      ∧ tinyPrimitives.jsonUnmarshal bs = .ok { h with key := [] } := by
  have hcode : ∃ c, tinyHashCode h.HashType = some c ∧ tinyHashName c = some h.HashType := by
    unfold NewHash at hk
    unfold tinyHashCode
    split_ifs at hk ⊢ with h1 h2 h3 h4
    · exact ⟨0, rfl, by rw [h1]; rfl⟩
    · exact ⟨1, rfl, by rw [h2]; rfl⟩
    · exact ⟨2, rfl, by rw [h3]; rfl⟩
    · exact ⟨3, rfl, by rw [h4]; rfl⟩
    · simp at hk
  obtain ⟨c, hc1, hc2⟩ := hcode
  refine ⟨c :: tinyEncList h.Hash (tinyEncList h.EncKey (tinyEncList h.IV [])), ?_, ?_⟩
  · simp [tinyPrimitives, tinyMarshal, hc1]
  · simp [tinyPrimitives, tinyUnmarshal, hc2, tinyDecList_tinyEncList]

/-- C1: for each of the four hash algorithms and every plaintext, written in any pieces
through a `CryptoWriter` that is then closed, a `CryptoReader` built from the stored
header and the matching private key returns exactly the plaintext when read to
end-of-stream, with any buffer lengths, and `CheckSum` then reports no error; reading
with one buffer longer than the data and one more `Read` does reach end-of-stream.
Assumed: the random source delivers, RSA unwrap inverts wrap (on a non-empty wrapped
key within the ceiling), the CFB decrypter inverts the CFB encrypter, the header record
decodes to what was encoded. -/
theorem write_then_read_roundtrip (P : Primitives) (ent : Entropy)
    (publicData privateData : List Byte) (hashType : String) (keyDraw ivDraw : List Byte)
    (hType : hashType = "md5" ∨ hashType = "sha1" ∨ hashType = "sha256"
      ∨ hashType = "crc32")
    (hKey : ent.key = .ok keyDraw) (hIV : ent.iv = .ok ivDraw)
    (hRSA : ∀ key, key.length = KeySize → ∃ c, rsaEncrypt P publicData ent.pad key = .ok c
        ∧ 0 < c.length ∧ c.length ≤ MaxEncKeySize ∧ rsaDecrypt P privateData c = .ok key)
    (hCFB : ∀ key iv p, (XORKeyStream P (P.NewCFBDecrypter key iv)
        (XORKeyStream P (P.NewCFBEncrypter key iv) p).1).1 = p)
    (hJSON : ∀ h : Header, (NewHash P h.HashType).isSome →
        ∃ bs, P.jsonMarshal h = .ok bs ∧ P.jsonUnmarshal bs = .ok { h with key := [] })
    (pieces : List (List Byte)) :
    (∀ sizes, ∃ plain err sum,
        roundTrip P ent publicData privateData hashType pieces sizes = some (plain, err, sum)
        ∧ (err = some (.io .EOF) → plain = pieces.flatten ∧ sum = none))
    ∧ roundTrip P ent publicData privateData hashType pieces [pieces.flatten.length + 1, 1]
        = some (pieces.flatten, some (.io .EOF), none) := by
  obtain ⟨key, iv, c, alg, bs, w, w1, w2, hk, hi, hAlg, hc0, hdec, hun, hW, hwa, hcl, hhs, hds⟩ :=
    writer_side P ent publicData privateData hashType keyDraw ivDraw hType hKey hIV hRSA
      hJSON pieces
  have hR : ReadHeaderV2 P ⟨w2.headerWriter.stored⟩ = .ok
      { Hash := (Hasher.Write ⟨alg, P.hashInit alg⟩ pieces.flatten).Sum,
        HashType := hashType, EncKey := c, IV := iv, key := [] } := by
    simp [ReadHeaderV2, ioReadAll, hhs, hun]
  have hNR : NewCryptoReader P ⟨w2.dataWriter.stored⟩ privateData
      { Hash := (Hasher.Write ⟨alg, P.hashInit alg⟩ pieces.flatten).Sum,
        HashType := hashType, EncKey := c, IV := iv, key := [] }
      = .ok { source := ⟨w2.dataWriter.stored⟩,
              header := { Hash := (Hasher.Write ⟨alg, P.hashInit alg⟩ pieces.flatten).Sum,
                          HashType := hashType, EncKey := c, IV := iv, key := key },
              buf := [], stream := P.NewCFBDecrypter key iv,
              hash := ⟨alg, P.hashInit alg⟩ } := by
    have hi2 : iv.length = aesBlockSize := hi
    simp only [NewCryptoReader, hAlg, hdec, aesNewCipher, hk]
    simp [hi2, Nat.ne_of_gt hc0]
  have hrt : ∀ sizes, roundTrip P ent publicData privateData hashType pieces sizes
      = some ((CryptoReader.readAll
            ({ source := ⟨w2.dataWriter.stored⟩,
               header := { Hash := (Hasher.Write ⟨alg, P.hashInit alg⟩ pieces.flatten).Sum,
                           HashType := hashType, EncKey := c, IV := iv, key := key },
               buf := [], stream := P.NewCFBDecrypter key iv,
               hash := ⟨alg, P.hashInit alg⟩ } : CryptoReader P) sizes).1.1,
          (CryptoReader.readAll
            ({ source := ⟨w2.dataWriter.stored⟩,
               header := { Hash := (Hasher.Write ⟨alg, P.hashInit alg⟩ pieces.flatten).Sum,
                           HashType := hashType, EncKey := c, IV := iv, key := key },
               buf := [], stream := P.NewCFBDecrypter key iv,
               hash := ⟨alg, P.hashInit alg⟩ } : CryptoReader P) sizes).1.2,
          (CryptoReader.readAll
            ({ source := ⟨w2.dataWriter.stored⟩,
               header := { Hash := (Hasher.Write ⟨alg, P.hashInit alg⟩ pieces.flatten).Sum,
                           HashType := hashType, EncKey := c, IV := iv, key := key },
               buf := [], stream := P.NewCFBDecrypter key iv,
               hash := ⟨alg, P.hashInit alg⟩ } : CryptoReader P) sizes).2.CheckSum) := by
    intro sizes
    simp only [roundTrip, hW, hwa, hcl, hR, hNR]
  have hgood : ∀ sizes,
      (CryptoReader.readAll
            ({ source := ⟨w2.dataWriter.stored⟩,
               header := { Hash := (Hasher.Write ⟨alg, P.hashInit alg⟩ pieces.flatten).Sum,
                           HashType := hashType, EncKey := c, IV := iv, key := key },
               buf := [], stream := P.NewCFBDecrypter key iv,
               hash := ⟨alg, P.hashInit alg⟩ } : CryptoReader P) sizes).1.2
          = some (.io .EOF) →
      (CryptoReader.readAll
            ({ source := ⟨w2.dataWriter.stored⟩,
               header := { Hash := (Hasher.Write ⟨alg, P.hashInit alg⟩ pieces.flatten).Sum,
                           HashType := hashType, EncKey := c, IV := iv, key := key },
               buf := [], stream := P.NewCFBDecrypter key iv,
               hash := ⟨alg, P.hashInit alg⟩ } : CryptoReader P) sizes).1.1 = pieces.flatten
      ∧ (CryptoReader.readAll
            ({ source := ⟨w2.dataWriter.stored⟩,
               header := { Hash := (Hasher.Write ⟨alg, P.hashInit alg⟩ pieces.flatten).Sum,
                           HashType := hashType, EncKey := c, IV := iv, key := key },
               buf := [], stream := P.NewCFBDecrypter key iv,
               hash := ⟨alg, P.hashInit alg⟩ } : CryptoReader P) sizes).2.CheckSum = none := by
    intro sizes hEOF
    obtain ⟨k, _, e1, e2, e3, e4⟩ := readAll_effect sizes
      ({ source := ⟨w2.dataWriter.stored⟩,
         header := { Hash := (Hasher.Write ⟨alg, P.hashInit alg⟩ pieces.flatten).Sum,
                     HashType := hashType, EncKey := c, IV := iv, key := key },
         buf := [], stream := P.NewCFBDecrypter key iv,
         hash := ⟨alg, P.hashInit alg⟩ } : CryptoReader P)
    have hkk := e4 hEOF
    simp only at e1 e2 e3 hkk
    have hfin : (XORKeyStream P (P.NewCFBDecrypter key iv)
        (w2.dataWriter.stored.take k)).1 = pieces.flatten := by
      rw [hkk, List.take_length, hds, hCFB]
    rw [hfin] at e1
    refine ⟨e1, ?_⟩
    unfold CryptoReader.CheckSum
    rw [e3, e2, e1]
    simp
  constructor
  · intro sizes
    exact ⟨_, _, _, hrt sizes, hgood sizes⟩
  · have hlen : pieces.flatten.length = w2.dataWriter.stored.length := by
      rw [hds, XORKeyStream_length]
    have hE := readAll_reaches_EOF
      ({ source := ⟨w2.dataWriter.stored⟩,
         header := { Hash := (Hasher.Write ⟨alg, P.hashInit alg⟩ pieces.flatten).Sum,
                     HashType := hashType, EncKey := c, IV := iv, key := key },
         buf := [], stream := P.NewCFBDecrypter key iv,
         hash := ⟨alg, P.hashInit alg⟩ } : CryptoReader P)
    simp only at hE
    rw [← hlen] at hE
    rw [hrt, hE, (hgood _ hE).1, (hgood _ hE).2]

theorem write_then_read_roundtrip_witness :
    roundTrip tinyPrimitives tinyEntropy [1] [1] "sha256" [[104, 101], [], [108, 108, 111]]
        [6, 1]
      = some ([104, 101, 108, 108, 111], some (.io .EOF), none) :=
  (write_then_read_roundtrip tinyPrimitives tinyEntropy [1] [1] "sha256"
    (List.replicate 16 7) (List.replicate 16 3) (Or.inr (Or.inr (Or.inl rfl))) rfl rfl
    (tiny_rsa_inverse []) tiny_cfb_inverse tiny_json_inverse
    [[104, 101], [], [108, 108, 111]]).2

/-! ## The store: legacy objects -/

/-- A header the legacy decoder returns has no hash algorithm name. -/
theorem ParseHeaderV1_HashType (data : FileReader) (header : Header)
    (h : (ParseHeaderV1 data).1 = .ok header) : header.HashType = "" := by
  unfold ParseHeaderV1 at h
  dsimp only at h
  split at h
  · cases h
  · split at h
    · cases h
    · split at h
      · cases h
      · split at h
        · cases h
        · split at h
          · simp only [GoResult.ok.injEq] at h
            rw [← h]
          · cases h

/-- With no hash algorithm name the reader cannot be built. -/
theorem NewCryptoReader_no_HashType (P : Primitives) (rd : FileReader)
    (privateData : List Byte) (header : Header) (h : header.HashType = "") :
    NewCryptoReader P rd privateData header = .error .hashIsNil := by
  simp [NewCryptoReader, NewHash, h]

/-- Whatever the object holds, `Open` without a sidecar object never returns a reader. -/
theorem Open_without_sidecar (P : Primitives) (c : CryptoStore) (name : String)
    (h : storageFileExists c.objects (c.FormatHeaderName name) = false) :
    (c.Open P name).isOk = false := by
  unfold CryptoStore.Open
  cases hO : storageOpen c.objects name with
  | error e => rfl
  | ok dataReader =>
    simp only [h, Bool.false_eq_true, if_false]
    unfold ReadHeaderV1
    rcases hp : ParseHeaderV1 dataReader with ⟨res, rd⟩
    cases res with
    | error e => rfl
    | panic => rfl
    | ok header =>
      have ht := ParseHeaderV1_HashType dataReader header (by rw [hp])
      simp only
      rw [NewCryptoReader_no_HashType P rd c.privateKey header ht]
      rfl

/-! ## Further behaviour of the key wrap and of the legacy decoder -/

/-- A PEM block holding a well-formed public key of another algorithm than RSA makes
`rsaEncrypt` panic at the unchecked type assertion. -/
theorem rsaEncrypt_panics_on_other_key (P : Primitives) (publicData blockBytes pad
    origData : List Byte) (hpem : P.pemDecode publicData = some blockBytes)
    (hkey : P.ParsePKIXPublicKey blockBytes = .ok none) :
    rsaEncrypt P publicData pad origData = .panic := by
  simp [rsaEncrypt, hpem, hkey]

theorem FileReader_Read_buf_length (src : FileReader) (buf : List Byte) :
    (src.Read buf).buf.length = buf.length := by
  unfold FileReader.Read
  split
  · rfl
  · split
    · rfl
    · simp [goCopy_length]

/-- The legacy decoder on a correctly laid out header whose `64 + len key + len iv` does
not fit 16 bits: the wrapped sum makes the wrapped-key slice out of range. -/
theorem ParseHeaderV1_panics_past_uint16 (hash encKey iv : List Byte)
    (h0 : 0 < hash.length) (hHash : hash.length ≤ 64) (hKey : encKey.length < 65536)
    (hIV : iv.length < 256) (hSum : 65536 ≤ 64 + encKey.length + iv.length) :
    (ParseHeaderV1 ⟨layoutV1 hash encKey iv⟩).1 = .panic := by
  have hm : (toByte hash.length).val = hash.length := by
    simp only [toByte]; omega
  have hv : (toByte iv.length).val = iv.length := by
    simp only [toByte]; omega
  have hk := decode_encKeySize encKey.length hKey
  have hsrc : layoutV1 hash encKey iv
      = MagicKeyV1 ++ ([toByte hash.length, toByte encKey.length,
          toByte (encKey.length / 256), toByte iv.length] ++
          ((hash ++ makeBytes (MaxHashSize - hash.length)) ++ (encKey ++ iv))) := by
    simp only [layoutV1]
  have hbody : (hash ++ makeBytes (MaxHashSize - hash.length) ++ (encKey ++ iv)) ≠ [] := by
    intro h
    have := congrArg List.length h
    simp only [List.length_append, List.length_nil] at this
    omega
  rw [hsrc]
  unfold ParseHeaderV1
  rw [Read_front_of_length MagicKeyV1 _ magicKeySize rfl]
  dsimp only
  rw [if_neg (by intro h; rcases h with h | h <;> exact h rfl)]
  rw [Read_front_of_length [toByte hash.length, toByte encKey.length,
    toByte (encKey.length / 256), toByte iv.length] _ HeaderLenSize rfl]
  dsimp only
  simp only [List.getD_cons_zero, List.getD_cons_succ, hm, hv, hk]
  rw [if_neg (by omega)]
  obtain ⟨_, _, _, f4⟩ := FileReader_Read_effect
    ⟨hash ++ makeBytes (MaxHashSize - hash.length) ++ (encKey ++ iv)⟩
    (makeBytes (toUint16 (MaxHashSize + encKey.length + iv.length)))
  have herr : ((FileReader.mk (hash ++ makeBytes (MaxHashSize - hash.length)
      ++ (encKey ++ iv))).Read
      (makeBytes (toUint16 (MaxHashSize + encKey.length + iv.length)))).err = none := by
    rw [f4, if_neg (fun h => hbody h.2)]
  have hlen := FileReader_Read_buf_length
    ⟨hash ++ makeBytes (MaxHashSize - hash.length) ++ (encKey ++ iv)⟩
    (makeBytes (toUint16 (MaxHashSize + encKey.length + iv.length)))
  rw [makeBytes_length] at hlen
  have hnone : slice ((FileReader.mk (hash ++ makeBytes (MaxHashSize - hash.length)
      ++ (encKey ++ iv))).Read
      (makeBytes (toUint16 (MaxHashSize + encKey.length + iv.length)))).buf MaxHashSize
      (toUint16 (MaxHashSize + encKey.length)) = none := by
    unfold slice
    rw [if_neg]
    rw [hlen]
    simp only [toUint16, MaxHashSize]
    omega
  rw [herr]
  dsimp only
  rw [hnone]
  split <;> simp_all

end CryptoStorage
